import Mathlib

/-!
Shallow embedding of the fdups.go duplicate-file finder.

The worker pool (package pool, defaultWorkerPool) is modelled as the state
protected by `taskCountLock` together with the pool status.  Each critical
section of the Go code (Submit's increment, CloseSubmit's check-and-publish,
the worker's post-task decrement-and-check) becomes one atomic step of a
transition function; a concurrent execution is an arbitrary interleaving,
i.e. a list of such steps.  The `Nat` component of each step counts how many
times `EventAllTaskDone` is sent to the event channel by that step.

The finder (package finder, baseFinder) is modelled file by file: the walk
callback `processWalkEntry`, the hash task built by `createHashFunction` /
`hashFile`, the collector's `groupDuplicates` over the result map (a Go map,
modelled as an association list), and `waitForCompletion` over the two
completion reports, instrumented with the number of reports it consumes.
-/

/-- Pool status enumeration: statusStopped / statusStarted from the source. -/
inductive PoolStatus where
  | stopped
  | started
deriving DecidableEq, Repr

/-- Lock-protected state of defaultWorkerPool: `status`, `taskCount` (a Go
`int`, hence `Int`) and `submittingComplete`. -/
structure WorkerPool where
  status : PoolStatus
  taskCount : Int
  submittingComplete : Bool
deriving DecidableEq, Repr

/-- NewDefaultWorkerPool: status Stopped, taskCount 0, submitting open. -/
def NewDefaultWorkerPool : WorkerPool :=
  ⟨PoolStatus.stopped, 0, false⟩

/-- Error message returned by Submit on a pool that is not Started. -/
def submitRejectedMsg : String :=
  "no new tasks are accepted for stopped or paused worker pool"

/-- Submit: rejected with an error unless status is Started; on acceptance
the pending-task counter is incremented by one (the enqueue hand-off itself
carries no counter change). -/
def Submit (w : WorkerPool) : WorkerPool × Option String :=
  if w.status = PoolStatus.started then
    (⟨w.status, w.taskCount + 1, w.submittingComplete⟩, none)
  else
    (w, some submitRejectedMsg)

/-- Start: no-op unless Stopped; otherwise launches workers and moves to
Started (worker goroutine launch is not part of the lock state). -/
def Start (w : WorkerPool) : WorkerPool :=
  if w.status = PoolStatus.stopped then
    ⟨PoolStatus.started, w.taskCount, w.submittingComplete⟩
  else w

/-- Stop: no-op unless Started; otherwise cancels both contexts (not part of
the counter state) and moves to Stopped. -/
def Stop (w : WorkerPool) : WorkerPool :=
  if w.status = PoolStatus.started then
    ⟨PoolStatus.stopped, w.taskCount, w.submittingComplete⟩
  else w

/-- CloseSubmit critical section: set submittingComplete, and if the counter
is already `≤ 0` publish EventAllTaskDone (asynchronously, via a spawned
goroutine; we count the publication at this step). -/
def CloseSubmit (w : WorkerPool) : WorkerPool × Nat :=
  (⟨w.status, w.taskCount, true⟩, if w.taskCount ≤ 0 then 1 else 0)

/-- Worker post-task critical section: decrement the counter, and if
submitting is complete and the counter is now `≤ 0` publish
EventAllTaskDone. -/
def workerTaskDone (w : WorkerPool) : WorkerPool × Nat :=
  (⟨w.status, w.taskCount - 1, w.submittingComplete⟩,
   if w.submittingComplete ∧ w.taskCount - 1 ≤ 0 then 1 else 0)

/-- GetTaskCount: point-in-time read of the pending-task counter. -/
def GetTaskCount (w : WorkerPool) : Int :=
  w.taskCount

/-- One atomic lock-section event of the pool. -/
inductive PoolEvent where
  | start
  | stop
  | submit
  | closeSubmit
  | taskDone
deriving DecidableEq, Repr

/-- Transition function: the state after an event, together with the number
of EventAllTaskDone publications the event performs. -/
def poolStep (w : WorkerPool) : PoolEvent → WorkerPool × Nat
  | PoolEvent.start => (Start w, 0)
  | PoolEvent.stop => (Stop w, 0)
  | PoolEvent.submit => ((Submit w).1, 0)
  | PoolEvent.closeSubmit => CloseSubmit w
  | PoolEvent.taskDone => workerTaskDone w

/-- Run a sequence of interleaved lock-section events, accumulating the
total number of EventAllTaskDone publications. -/
def runPool : WorkerPool → List PoolEvent → WorkerPool × Nat
  | w, [] => (w, 0)
  | w, e :: es =>
    ((runPool (poolStep w e).1 es).1,
     (poolStep w e).2 + (runPool (poolStep w e).1 es).2)

/-- Pool state right after NewDefaultWorkerPool followed by Start, i.e. at
the beginning of a scan. -/
def startedPool : WorkerPool :=
  Start NewDefaultWorkerPool

/-- Realizability of a trace: a taskDone step can only happen for a task
that some earlier accepted Submit put into the queue.  `pending` is the
ghost count of accepted-but-not-completed tasks. -/
def validPoolTrace : WorkerPool → Nat → List PoolEvent → Bool
  | _, _, [] => true
  | w, pending, e :: es =>
    match e with
    | PoolEvent.taskDone =>
      decide (1 ≤ pending) && validPoolTrace (workerTaskDone w).1 (pending - 1) es
    | PoolEvent.submit =>
      validPoolTrace (Submit w).1
        (if w.status = PoolStatus.started then pending + 1 else pending) es
    | PoolEvent.start => validPoolTrace (Start w) pending es
    | PoolEvent.stop => validPoolTrace (Stop w) pending es
    | PoolEvent.closeSubmit => validPoolTrace (CloseSubmit w).1 pending es

example : runPool startedPool
    [PoolEvent.submit, PoolEvent.taskDone, PoolEvent.closeSubmit] =
    (⟨PoolStatus.started, 0, true⟩, 1) := by decide

example : runPool startedPool
    [PoolEvent.submit, PoolEvent.closeSubmit, PoolEvent.taskDone] =
    (⟨PoolStatus.started, 0, true⟩, 1) := by decide

example : runPool startedPool [PoolEvent.closeSubmit] =
    (⟨PoolStatus.started, 0, true⟩, 1) := by decide

lemma runPool_append (w : WorkerPool) (l₁ l₂ : List PoolEvent) :
    runPool w (l₁ ++ l₂) =
      ((runPool (runPool w l₁).1 l₂).1,
       (runPool w l₁).2 + (runPool (runPool w l₁).1 l₂).2) := by
  induction l₁ generalizing w with
  | nil => simp [runPool]
  | cons e es ih => simp [runPool, ih, Nat.add_assoc]

lemma poolStep_submit_started (c : Int) (b : Bool) :
    poolStep ⟨PoolStatus.started, c, b⟩ PoolEvent.submit =
      (⟨PoolStatus.started, c + 1, b⟩, 0) := by
  simp [poolStep, Submit]

lemma poolStep_taskDone (st : PoolStatus) (c : Int) (b : Bool) :
    poolStep ⟨st, c, b⟩ PoolEvent.taskDone =
      (⟨st, c - 1, b⟩, if b ∧ c - 1 ≤ 0 then 1 else 0) := by
  simp [poolStep, workerTaskDone]

lemma poolStep_closeSubmit (st : PoolStatus) (c : Int) (b : Bool) :
    poolStep ⟨st, c, b⟩ PoolEvent.closeSubmit =
      (⟨st, c, true⟩, if c ≤ 0 then 1 else 0) := by
  simp [poolStep, CloseSubmit]

lemma runPool_open_phase (s : List PoolEvent) :
    ∀ c : Int, (∀ e ∈ s, e = PoolEvent.submit ∨ e = PoolEvent.taskDone) →
    runPool ⟨PoolStatus.started, c, false⟩ s =
      (⟨PoolStatus.started,
        c + s.count PoolEvent.submit - s.count PoolEvent.taskDone, false⟩, 0) := by
  induction s with
  | nil => intro c _; simp [runPool]
  | cons e es ih =>
    intro c h
    have he := h e (List.mem_cons_self e es)
    have hes : ∀ x ∈ es, x = PoolEvent.submit ∨ x = PoolEvent.taskDone :=
      fun x hx => h x (List.mem_cons_of_mem e hx)
    rcases he with he | he <;> subst he
    · rw [runPool, poolStep_submit_started]
      rw [ih (c + 1) hes]
      simp [List.count_cons, WorkerPool.mk.injEq]
      omega
    · rw [runPool, poolStep_taskDone]
      rw [ih (c - 1) hes]
      simp [List.count_cons, WorkerPool.mk.injEq]
      omega

lemma runPool_drain_phase : ∀ (n : Nat) (st : PoolStatus),
    runPool ⟨st, (n : Int), true⟩ (List.replicate n PoolEvent.taskDone) =
      (⟨st, 0, true⟩, if n = 0 then 0 else 1) := by
  intro n
  induction n with
  | zero => intro st; simp [runPool]
  | succ m ih =>
    intro st
    rw [List.replicate_succ, runPool, poolStep_taskDone]
    have hc : ((m + 1 : Nat) : Int) - 1 = (m : Int) := by push_cast; ring
    rw [hc]
    rw [ih st]
    rcases m with _ | m'
    · norm_num
    · have hpos : ¬ (((m' + 1 : Nat) : Int) ≤ 0) := by push_cast; omega
      simp [hpos]

/-- C1: for every scan — every interleaving of Submit increments and worker
decrements in which all submissions precede the single CloseSubmit and every
submitted task is eventually completed — the pool publishes EventAllTaskDone
exactly once: never zero events and never two, regardless of the timing of
the last decrement relative to CloseSubmit. -/
theorem pool_publishes_completion_exactly_once
    (s t : List PoolEvent)
    (hs : ∀ e ∈ s, e = PoolEvent.submit ∨ e = PoolEvent.taskDone)
    (ht : ∀ e ∈ t, e = PoolEvent.taskDone)
    (hbal : (s ++ PoolEvent.closeSubmit :: t).count PoolEvent.taskDone
          = (s ++ PoolEvent.closeSubmit :: t).count PoolEvent.submit) :
    (runPool startedPool (s ++ PoolEvent.closeSubmit :: t)).2 = 1 := by
  have htrep : t = List.replicate t.length PoolEvent.taskDone :=
    List.eq_replicate_of_mem ht
  have hts : t.count PoolEvent.submit = 0 := by
    rw [htrep]; simp [List.count_replicate]
  have htd : t.count PoolEvent.taskDone = t.length := by
    rw [htrep]; simp
  have hn : s.count PoolEvent.submit = s.count PoolEvent.taskDone + t.length := by
    simp [List.count_append, List.count_cons, hts, htd] at hbal
    omega
  have hsp : startedPool = (⟨PoolStatus.started, 0, false⟩ : WorkerPool) := rfl
  rw [runPool_append, hsp, runPool_open_phase s 0 hs]
  have hcnt : (0 : Int) + s.count PoolEvent.submit - s.count PoolEvent.taskDone
      = (t.length : Int) := by
    omega
  rw [hcnt]
  rw [runPool, poolStep_closeSubmit]
  rw [htrep]
  simp only [List.length_replicate]
  rw [runPool_drain_phase t.length PoolStatus.started]
  by_cases h0 : t.length = 0
  · simp [h0]
  · have hpos : ¬ ((t.length : Int) ≤ 0) := by omega
    simp [h0, hpos]

/-- C1 witness: two submissions interleaved with one completion, submission
closed, then the last completion: exactly one completion event. -/
theorem pool_publishes_completion_exactly_once_witness :
    (runPool startedPool
      [PoolEvent.submit, PoolEvent.submit, PoolEvent.taskDone,
       PoolEvent.closeSubmit, PoolEvent.taskDone]).2 = 1 :=
  pool_publishes_completion_exactly_once
    [PoolEvent.submit, PoolEvent.submit, PoolEvent.taskDone]
    [PoolEvent.taskDone]
    (by decide) (by decide) (by decide)

/-- C5: Submit on a pool whose state is not Started returns the "pool not
accepting submissions" error and leaves the pending-task counter unchanged;
Submit on a Started pool accepts the task (no error) and increments the
pending-task counter by exactly one, touching nothing else. -/
theorem submit_requires_started (w : WorkerPool) :
    (w.status ≠ PoolStatus.started → Submit w = (w, some submitRejectedMsg)) ∧
    (w.status = PoolStatus.started →
      (Submit w).2 = none ∧
      (Submit w).1.taskCount = w.taskCount + 1 ∧
      (Submit w).1.status = w.status ∧
      (Submit w).1.submittingComplete = w.submittingComplete) := by
  constructor
  · intro h
    simp [Submit, h]
  · intro h
    simp [Submit, h]

/-- C5 witness: a stopped pool rejects without touching the counter, a
started pool with counter 5 moves to 6 without an error. -/
theorem submit_requires_started_witness :
    Submit ⟨PoolStatus.stopped, 3, false⟩ =
      (⟨PoolStatus.stopped, 3, false⟩, some submitRejectedMsg) ∧
    (Submit ⟨PoolStatus.started, 5, false⟩).2 = none ∧
    (Submit ⟨PoolStatus.started, 5, false⟩).1.taskCount = 5 + 1 :=
  ⟨(submit_requires_started ⟨PoolStatus.stopped, 3, false⟩).1 (by decide),
   ((submit_requires_started ⟨PoolStatus.started, 5, false⟩).2 rfl).1,
   ((submit_requires_started ⟨PoolStatus.started, 5, false⟩).2 rfl).2.1⟩

/-- C6: CloseSubmit called while the pending-task counter is 0 itself
publishes the completion event (count 1 at this very step), with no worker
decrement needed. -/
theorem closeSubmit_with_zero_counter_publishes (w : WorkerPool)
    (h : w.taskCount = 0) :
    CloseSubmit w = (⟨w.status, 0, true⟩, 1) := by
  simp [CloseSubmit, h]

/-- C6 witness: a freshly started pool, CloseSubmit publishes at once. -/
theorem closeSubmit_with_zero_counter_publishes_witness :
    CloseSubmit startedPool = (⟨PoolStatus.started, 0, true⟩, 1) :=
  closeSubmit_with_zero_counter_publishes startedPool rfl

lemma taskCount_nonneg_aux : ∀ (l : List PoolEvent) (w : WorkerPool) (p : Nat),
    w.taskCount = (p : Int) → validPoolTrace w p l = true →
    ∀ k, 0 ≤ ((runPool w (l.take k)).1).taskCount := by
  intro l
  induction l with
  | nil =>
    intro w p hw _ k
    simp [runPool]
    omega
  | cons e es ih =>
    intro w p hw hv k
    cases k with
    | zero =>
      simp [runPool]
      omega
    | succ k =>
      rw [List.take_succ_cons, runPool]
      cases e with
      | taskDone =>
        simp only [validPoolTrace, Bool.and_eq_true, decide_eq_true_eq] at hv
        exact ih (workerTaskDone w).1 (p - 1)
          (by simp [workerTaskDone]; omega) hv.2 k
      | submit =>
        simp only [validPoolTrace] at hv
        by_cases hst : w.status = PoolStatus.started
        · rw [if_pos hst] at hv
          exact ih (Submit w).1 (p + 1) (by simp [Submit, hst]; omega) hv k
        · rw [if_neg hst] at hv
          exact ih (Submit w).1 p (by simp [Submit, hst]; omega) hv k
      | start =>
        simp only [validPoolTrace] at hv
        refine ih (Start w) p ?_ hv k
        simp only [Start]
        split <;> simpa using hw
      | stop =>
        simp only [validPoolTrace] at hv
        refine ih (Stop w) p ?_ hv k
        simp only [Stop]
        split <;> simpa using hw
      | closeSubmit =>
        simp only [validPoolTrace] at hv
        exact ih (CloseSubmit w).1 p (by simpa [CloseSubmit] using hw) hv k

/-- C7: the pending-task counter starts at 0; each accepted submission
increments it by one and each completion decrements it by one; and along
every realizable interleaving (each completion justified by an earlier
accepted submission) GetTaskCount is non-negative at every point. -/
theorem taskCount_never_negative :
    GetTaskCount NewDefaultWorkerPool = 0 ∧
    (∀ w, w.status = PoolStatus.started →
      (Submit w).1.taskCount = w.taskCount + 1) ∧
    (∀ w, (workerTaskDone w).1.taskCount = w.taskCount - 1) ∧
    (∀ l : List PoolEvent, validPoolTrace NewDefaultWorkerPool 0 l = true →
      ∀ k, 0 ≤ GetTaskCount ((runPool NewDefaultWorkerPool (l.take k)).1)) := by
  refine ⟨rfl, ?_, fun w => rfl, ?_⟩
  · intro w h
    simp [Submit, h]
  · intro l hv k
    exact taskCount_nonneg_aux l NewDefaultWorkerPool 0 rfl hv k

/-- C7 witness: a start, two accepted submissions and a completion; the
counter observed after three steps is non-negative. -/
theorem taskCount_never_negative_witness :
    GetTaskCount NewDefaultWorkerPool = 0 ∧
    0 ≤ GetTaskCount ((runPool NewDefaultWorkerPool
      ([PoolEvent.start, PoolEvent.submit, PoolEvent.submit,
        PoolEvent.taskDone].take 3)).1) :=
  ⟨taskCount_never_negative.1,
   taskCount_never_negative.2.2.2
     [PoolEvent.start, PoolEvent.submit, PoolEvent.submit, PoolEvent.taskDone]
     (by decide) 3⟩

/-- FileInfo record from src/finder/file_info.go: name, absolute path, size
in bytes, hex-encoded content hash (empty until computed). -/
structure FileInfo where
  Name : String
  Path : String
  Size : Int
  Hash : String
deriving DecidableEq, Repr

/-- Subset of os.FileInfo the finder consults: base name, size, directory
flag. -/
structure OsFileInfo where
  name : String
  size : Int
  isDir : Bool
deriving DecidableEq, Repr

/-- taskInput: the task input type; the fileInfo pointer may be nil. -/
structure taskInput where
  fileInfo : Option FileInfo
deriving DecidableEq, Repr

/-- taskOutput: resulting record (possibly nil) plus error. -/
structure taskOutput where
  fileInfo : Option FileInfo
  err : Option String
deriving DecidableEq, Repr

/-- walkDirectoryYield: one item sent on the traversal channel. -/
structure walkDirectoryYield where
  err : Option String
  fileInfo : Option FileInfo
deriving DecidableEq, Repr

/-- Lowercase hex digit, as produced by Go fmt %x. -/
def hexDigit (n : Nat) : Char :=
  if n < 10 then Char.ofNat (48 + n) else Char.ofNat (87 + n)

/-- Two lowercase hex digits for one byte. -/
def hexByte (b : Nat) : String :=
  String.mk [hexDigit (b / 16 % 16), hexDigit (b % 16)]

/-- fmt.Sprintf %x over a byte slice: lowercase hex, two digits per byte. -/
def hexEncode (bs : List Nat) : String :=
  String.join (bs.map hexByte)

example : hexEncode [0, 255, 16] = "00ff10" := by decide

/-- Go %q of a simple path (escaping of unusual characters is out of
scope: paths here are plain printable strings). -/
def quoteGo (s : String) : String :=
  "\"" ++ s ++ "\""

/-- Message of fmt.Errorf("failed to open %q: %w", path, err). -/
def wrapOpenError (path msg : String) : String :=
  "failed to open " ++ quoteGo path ++ ": " ++ msg

/-- Message of fmt.Errorf("failed to hash %q: %w", path, err). -/
def wrapHashError (path msg : String) : String :=
  "failed to hash " ++ quoteGo path ++ ": " ++ msg

/-- Message of errors.Join(err, fmt.Errorf("error accessing path %q", path)):
the two messages joined by a newline. -/
def wrapWalkError (path msg : String) : String :=
  msg ++ "\n" ++ "error accessing path " ++ quoteGo path

/-- hashFile: checks the task context first and performs no I/O when it is
already cancelled; otherwise opens the file (`fs` maps a path to its content
or an open error) and streams it through the hasher, wrapping either
failure with the offending path.  The file handle close is not part of the
value semantics. -/
def hashFile (fs : String → Except String (List Nat))
    (hasher : List Nat → Except String (List Nat))
    (cancelled : Bool) (fileInfo : FileInfo) : Except String (List Nat) :=
  if cancelled then Except.error "task cancelled"
  else
    match fs fileInfo.Path with
    | Except.error e => Except.error (wrapOpenError fileInfo.Path e)
    | Except.ok content =>
      match hasher content with
      | Except.error e => Except.error (wrapHashError fileInfo.Path e)
      | Except.ok digest => Except.ok digest

/-- createHashFunction: the task function the orchestrator submits.  A nil
input record yields taskOutput{nil, nil}; otherwise the record is hashed,
on success its Hash field is set to the hex digest, on failure the original
record is returned with the wrapping error. -/
def createHashFunction (fs : String → Except String (List Nat))
    (hasher : List Nat → Except String (List Nat))
    (cancelled : Bool) (input : taskInput) : taskOutput :=
  match input.fileInfo with
  | none => ⟨none, none⟩
  | some fi =>
    match hashFile fs hasher cancelled fi with
    | Except.error e => ⟨some fi, some e⟩
    | Except.ok digest =>
      ⟨some ⟨fi.Name, fi.Path, fi.Size, hexEncode digest⟩, none⟩

/-- C4: for every invocation of the hash task on a record: if the task
context is already cancelled it returns the "task cancelled" error without
any file I/O (the output does not depend on the filesystem at all); if not
cancelled and open and hash succeed, the returned record is the input
record with its Hash field set to the hex-encoded digest and the error is
nil; if the open or the hash fails, the original record is returned with
the wrapping error. -/
theorem hash_task_cancel_success_failure
    (fs fs' : String → Except String (List Nat))
    (hasher : List Nat → Except String (List Nat)) (fi : FileInfo) :
    (createHashFunction fs hasher true ⟨some fi⟩ =
        ⟨some fi, some "task cancelled"⟩ ∧
      createHashFunction fs hasher true ⟨some fi⟩ =
        createHashFunction fs' hasher true ⟨some fi⟩) ∧
    (∀ content digest, fs fi.Path = Except.ok content →
      hasher content = Except.ok digest →
      createHashFunction fs hasher false ⟨some fi⟩ =
        ⟨some ⟨fi.Name, fi.Path, fi.Size, hexEncode digest⟩, none⟩) ∧
    (∀ e, fs fi.Path = Except.error e →
      createHashFunction fs hasher false ⟨some fi⟩ =
        ⟨some fi, some (wrapOpenError fi.Path e)⟩) ∧
    (∀ content e, fs fi.Path = Except.ok content →
      hasher content = Except.error e →
      createHashFunction fs hasher false ⟨some fi⟩ =
        ⟨some fi, some (wrapHashError fi.Path e)⟩) := by
  refine ⟨⟨?_, ?_⟩, ?_, ?_, ?_⟩
  · simp [createHashFunction, hashFile]
  · simp [createHashFunction, hashFile]
  · intro content digest hfs hh
    simp [createHashFunction, hashFile, hfs, hh]
  · intro e hfs
    simp [createHashFunction, hashFile, hfs]
  · intro content e hfs hh
    simp [createHashFunction, hashFile, hfs, hh]

/-- C4 witness: a cancelled invocation returns the task-cancelled error; an
uncancelled one on a readable file returns the record with the hex digest
filled in and no error. -/
theorem hash_task_cancel_success_failure_witness :
    createHashFunction (fun _ => Except.ok [1, 2]) (fun c => Except.ok c)
        true ⟨some ⟨"a.txt", "/d/a.txt", 2, ""⟩⟩ =
      ⟨some ⟨"a.txt", "/d/a.txt", 2, ""⟩, some "task cancelled"⟩ ∧
    createHashFunction (fun _ => Except.ok [1, 2]) (fun c => Except.ok c)
        false ⟨some ⟨"a.txt", "/d/a.txt", 2, ""⟩⟩ =
      ⟨some ⟨"a.txt", "/d/a.txt", 2, hexEncode [1, 2]⟩, none⟩ :=
  ⟨(hash_task_cancel_success_failure (fun _ => Except.ok [1, 2])
      (fun _ => Except.ok [9]) (fun c => Except.ok c)
      ⟨"a.txt", "/d/a.txt", 2, ""⟩).1.1,
   (hash_task_cancel_success_failure (fun _ => Except.ok [1, 2])
      (fun _ => Except.ok [9]) (fun c => Except.ok c)
      ⟨"a.txt", "/d/a.txt", 2, ""⟩).2.1 [1, 2] [1, 2] rfl rfl⟩

/-- Result map of the finder: a Go map from digest string to the group of
FileInfo sharing it, modelled as an association list with distinct keys. -/
abbrev ResultMap := List (String × List FileInfo)

/-- Lookup in the result map. -/
def mapLookup : ResultMap → String → Option (List FileInfo)
  | [], _ => none
  | (k, v) :: rest, h => if k = h then some v else mapLookup rest h

/-- Insert or replace a key in the result map. -/
def mapInsert : ResultMap → String → List FileInfo → ResultMap
  | [], k, v => [(k, v)]
  | (k', v') :: rest, k, v =>
    if k' = k then (k, v) :: rest else (k', v') :: mapInsert rest k v

/-- groupDuplicates: append the record to the group keyed by its own Hash
field, creating a new single-element group when the key is absent. -/
def groupDuplicates (result : ResultMap) (fileInfo : FileInfo) : ResultMap :=
  mapInsert result fileInfo.Hash
    ((mapLookup result fileInfo.Hash).getD [] ++ [fileInfo])

/-- Collection of a stream of successful outputs into the result map, in
arrival order. -/
def collect (outs : List FileInfo) : ResultMap :=
  outs.foldl groupDuplicates []

lemma mapLookup_mapInsert_self (m : ResultMap) (k : String)
    (v : List FileInfo) : mapLookup (mapInsert m k v) k = some v := by
  induction m with
  | nil => simp [mapInsert, mapLookup]
  | cons p rest ih =>
    by_cases hk : p.1 = k
    · simp [mapInsert, hk, mapLookup]
    · simp [mapInsert, hk, mapLookup, ih]

lemma mapLookup_mapInsert_ne (m : ResultMap) (k h : String)
    (v : List FileInfo) (hne : k ≠ h) :
    mapLookup (mapInsert m k v) h = mapLookup m h := by
  induction m with
  | nil => simp [mapInsert, mapLookup, hne]
  | cons p rest ih =>
    by_cases hk : p.1 = k
    · simp [mapInsert, hk, mapLookup, hne]
    · simp [mapInsert, hk, mapLookup, ih]

lemma mapLookup_mem (m : ResultMap) (k : String) (v : List FileInfo)
    (h : mapLookup m k = some v) : (k, v) ∈ m := by
  induction m with
  | nil => simp [mapLookup] at h
  | cons p rest ih =>
    by_cases hk : p.1 = k
    · have hv : p.2 = v := by
        rw [show p = (p.1, p.2) from rfl, mapLookup, if_pos hk] at h
        exact Option.some.inj h
      rw [← hk, ← hv]
      exact List.mem_cons_self _ _
    · rw [show p = (p.1, p.2) from rfl, mapLookup, if_neg hk] at h
      exact List.mem_cons_of_mem p (ih h)

lemma mem_mapInsert (m : ResultMap) (k : String) (v : List FileInfo)
    (p : String × List FileInfo) (h : p ∈ mapInsert m k v) :
    p = (k, v) ∨ p ∈ m := by
  induction m with
  | nil =>
    simp [mapInsert] at h
    left
    exact h
  | cons q rest ih =>
    by_cases hk : q.1 = k
    · rw [show q = (q.1, q.2) from rfl, mapInsert, if_pos hk] at h
      rcases List.mem_cons.mp h with h | h
      · left; exact h
      · right; exact List.mem_cons_of_mem _ h
    · rw [show q = (q.1, q.2) from rfl, mapInsert, if_neg hk] at h
      rcases List.mem_cons.mp h with h | h
      · right; rw [h]; exact List.mem_cons_self _ _
      · rcases ih h with h | h
        · left; exact h
        · right; exact List.mem_cons_of_mem _ h

lemma mapLookup_foldl_some (l : List FileInfo) :
    ∀ (m : ResultMap) (h : String) (v : List FileInfo),
    mapLookup m h = some v →
    mapLookup (l.foldl groupDuplicates m) h =
      some (v ++ l.filter (fun fi => fi.Hash == h)) := by
  induction l with
  | nil =>
    intro m h v hm
    simpa [List.foldl] using hm
  | cons fi l ih =>
    intro m h v hm
    rw [List.foldl_cons]
    by_cases hfi : fi.Hash = h
    · have hl : mapLookup (groupDuplicates m fi) h =
          some (v ++ [fi]) := by
        rw [← hfi] at hm ⊢
        unfold groupDuplicates
        rw [mapLookup_mapInsert_self, hm]
        rfl
      rw [ih (groupDuplicates m fi) h (v ++ [fi]) hl]
      simp [List.filter_cons, hfi]
    · have hl : mapLookup (groupDuplicates m fi) h = some v := by
        unfold groupDuplicates
        rw [mapLookup_mapInsert_ne _ _ _ _ hfi, hm]
      rw [ih (groupDuplicates m fi) h v hl]
      simp [List.filter_cons, hfi]

lemma mapLookup_foldl_none (l : List FileInfo) :
    ∀ (m : ResultMap) (h : String),
    mapLookup m h = none →
    mapLookup (l.foldl groupDuplicates m) h =
      if l.filter (fun fi => fi.Hash == h) = [] then none
      else some (l.filter (fun fi => fi.Hash == h)) := by
  induction l with
  | nil =>
    intro m h hm
    simpa [List.foldl] using hm
  | cons fi l ih =>
    intro m h hm
    rw [List.foldl_cons]
    by_cases hfi : fi.Hash = h
    · have hl : mapLookup (groupDuplicates m fi) h = some [fi] := by
        rw [← hfi] at hm ⊢
        unfold groupDuplicates
        rw [mapLookup_mapInsert_self, hm]
        rfl
      rw [mapLookup_foldl_some l (groupDuplicates m fi) h [fi] hl]
      simp [List.filter_cons, hfi]
    · have hl : mapLookup (groupDuplicates m fi) h = none := by
        unfold groupDuplicates
        rw [mapLookup_mapInsert_ne _ _ _ _ hfi, hm]
      rw [ih (groupDuplicates m fi) h hl]
      simp [List.filter_cons, hfi]

/-- C3: the collector's result map groups by digest: the group stored under
any digest key h is exactly the arrival-ordered list of the successful
outputs whose Hash field is h (inserted by appending to an existing group
or creating a new single-element one), so any set of outputs sharing a
digest lands in exactly one group, keyed by that digest; and two accepted
files with byte-identical content (same bytes delivered to the same
Hasher) receive the identical digest key. -/
theorem byte_identical_files_single_group :
    (∀ (outs : List FileInfo) (h : String),
      mapLookup (collect outs) h =
        if outs.filter (fun fi => fi.Hash == h) = [] then none
        else some (outs.filter (fun fi => fi.Hash == h))) ∧
    (∀ (fs : String → Except String (List Nat))
       (hasher : List Nat → Except String (List Nat)) (fi₁ fi₂ r₁ r₂ : FileInfo),
      fs fi₁.Path = fs fi₂.Path →
      createHashFunction fs hasher false ⟨some fi₁⟩ = ⟨some r₁, none⟩ →
      createHashFunction fs hasher false ⟨some fi₂⟩ = ⟨some r₂, none⟩ →
      r₁.Hash = r₂.Hash) := by
  constructor
  · intro outs h
    exact mapLookup_foldl_none outs [] h rfl
  · intro fs hasher fi₁ fi₂ r₁ r₂ hcontent h₁ h₂
    rcases hfs₁ : fs fi₁.Path with e | content
    · simp [createHashFunction, hashFile, hfs₁] at h₁
    · have hfs₂ : fs fi₂.Path = Except.ok content := by
        rw [← hcontent, hfs₁]
      rcases hh : hasher content with e | digest
      · simp [createHashFunction, hashFile, hfs₁, hh] at h₁
      · simp [createHashFunction, hashFile, hfs₁, hfs₂, hh] at h₁ h₂
        rw [← h₁, ← h₂]

/-- C3 witness: three outputs, two sharing digest "aa": the map holds both
under the one key "aa"; and two records over byte-identical content get
the same digest key. -/
theorem byte_identical_files_single_group_witness :
    mapLookup (collect
      [⟨"a", "/a", 1, "aa"⟩, ⟨"c", "/c", 2, "bb"⟩, ⟨"b", "/b", 1, "aa"⟩])
      "aa" = some [⟨"a", "/a", 1, "aa"⟩, ⟨"b", "/b", 1, "aa"⟩] ∧
    (⟨"a", "/a", 1, hexEncode [7]⟩ : FileInfo).Hash =
      (⟨"b", "/b", 1, hexEncode [7]⟩ : FileInfo).Hash := by
  constructor
  · rw [byte_identical_files_single_group.1
      [⟨"a", "/a", 1, "aa"⟩, ⟨"c", "/c", 2, "bb"⟩, ⟨"b", "/b", 1, "aa"⟩] "aa"]
    decide
  · exact byte_identical_files_single_group.2
      (fun _ => Except.ok [7]) (fun c => Except.ok c)
      ⟨"a", "/a", 1, ""⟩ ⟨"b", "/b", 1, ""⟩
      ⟨"a", "/a", 1, hexEncode [7]⟩ ⟨"b", "/b", 1, hexEncode [7]⟩
      rfl (by decide) (by decide)

/-- Invariant of the result map: every key maps to a non-empty group, and
every record in the group keyed by h has its Hash field equal to h. -/
def resultMapInv (m : ResultMap) : Prop :=
  ∀ p ∈ m, p.2 ≠ [] ∧ ∀ fi ∈ p.2, fi.Hash = p.1

lemma resultMapInv_groupDuplicates (m : ResultMap) (g : FileInfo)
    (hm : resultMapInv m) : resultMapInv (groupDuplicates m g) := by
  intro p hp
  rcases mem_mapInsert _ _ _ _ hp with hp | hp
  · subst hp
    constructor
    · simp
    · intro fi hfi
      rcases List.mem_append.mp hfi with hfi | hfi
      · rcases hl : mapLookup m g.Hash with _ | v
        · rw [hl] at hfi
          simp at hfi
        · rw [hl] at hfi
          exact (hm (g.Hash, v) (mapLookup_mem m g.Hash v hl)).2 fi hfi
      · simp at hfi
        rw [hfi]
  · exact hm p hp

/-- C10: the result-map invariant — every key holds a non-empty group and
every record sits in the group keyed by its own Hash field — is preserved
by each groupDuplicates insertion (which always keys the insertion by the
inserted record's Hash), and therefore holds at every point of the
collection, i.e. after collecting any initial segment of the outputs. -/
theorem result_map_invariant :
    (∀ (m : ResultMap) (g : FileInfo),
      resultMapInv m → resultMapInv (groupDuplicates m g)) ∧
    (∀ (outs : List FileInfo) (n : Nat), resultMapInv (collect (outs.take n))) := by
  constructor
  · exact resultMapInv_groupDuplicates
  · intro outs n
    have haux : ∀ (l : List FileInfo) (m : ResultMap),
        resultMapInv m → resultMapInv (l.foldl groupDuplicates m) := by
      intro l
      induction l with
      | nil => intro m hm; simpa [List.foldl] using hm
      | cons fi l ih =>
        intro m hm
        rw [List.foldl_cons]
        exact ih (groupDuplicates m fi) (resultMapInv_groupDuplicates m fi hm)
    exact haux (outs.take n) [] (fun p hp => absurd hp (List.not_mem_nil p))

/-- C10 witness: inserting into a map that already satisfies the invariant
preserves it, and the map collected from a two-output stream satisfies it. -/
theorem result_map_invariant_witness :
    resultMapInv (groupDuplicates [] ⟨"a", "/a", 1, "aa"⟩) ∧
    resultMapInv (collect
      ([⟨"a", "/a", 1, "aa"⟩, ⟨"b", "/b", 1, "aa"⟩].take 2)) :=
  ⟨result_map_invariant.1 [] ⟨"a", "/a", 1, "aa"⟩
      (fun p hp => absurd hp (List.not_mem_nil p)),
   result_map_invariant.2 [⟨"a", "/a", 1, "aa"⟩, ⟨"b", "/b", 1, "aa"⟩] 2⟩

/-- One invocation of the filepath.Walk callback: the visited path, its
os.FileInfo, and the traversal error for that entry (nil when the entry was
read successfully). -/
structure DirEntry where
  path : String
  info : OsFileInfo
  err : Option String
deriving DecidableEq, Repr

/-- processWalkEntry: on a traversal error, wrap it with the offending path,
emit it on the channel and return it (aborting the walk); skip directories
and filtered-out files silently; emit a FileInfo with empty Hash for an
accepted file.  The first component is what is sent on the channel, the
second the error returned to filepath.Walk. -/
def processWalkEntry (fileFilter : String → OsFileInfo → Bool)
    (path : String) (info : OsFileInfo) (err : Option String) :
    Option walkDirectoryYield × Option String :=
  match err with
  | some msg =>
    (some ⟨some (wrapWalkError path msg), none⟩, some (wrapWalkError path msg))
  | none =>
    if info.isDir then (none, none)
    else if fileFilter path info then
      (some ⟨none, some ⟨info.name, path, info.size, ""⟩⟩, none)
    else (none, none)

/-- walkDirectory: run the walk callback over the traversal entries in
order; a returned error aborts the traversal after its yield is emitted. -/
def walkDirectory (fileFilter : String → OsFileInfo → Bool) :
    List DirEntry → List walkDirectoryYield
  | [] => []
  | e :: es =>
    match processWalkEntry fileFilter e.path e.info e.err with
    | (some y, some _) => [y]
    | (some y, none) => y :: walkDirectory fileFilter es
    | (none, _) => walkDirectory fileFilter es

/-- Walk goroutine, submission side: tasks submitted before the first
errored yield stops the loop; each submitted task wraps the yield's record
pointer as is. -/
def submittedInputs : List walkDirectoryYield → List taskInput
  | [] => []
  | y :: ys =>
    match y.err with
    | some _ => []
    | none => ⟨y.fileInfo⟩ :: submittedInputs ys

/-- Walk goroutine, report side: the first errored yield is reported on the
completion channel; a clean traversal reports nil. -/
def walkReport : List walkDirectoryYield → Option String
  | [] => none
  | y :: ys =>
    match y.err with
    | some e => some e
    | none => walkReport ys

/-- Collect goroutine: group successful outputs in arrival order; the first
errored output is reported and collection stops; when the completion event
arrives the accumulated map stands and nil is reported.  The unconditional
Go dereference of the output record is modelled by getD; claim C9 shows the
default is never used for outputs of submitted tasks. -/
def collectRun : ResultMap → List taskOutput → Option String × ResultMap
  | m, [] => (none, m)
  | m, o :: os =>
    match o.err with
    | some e => (some e, m)
    | none => collectRun (groupDuplicates m (o.fileInfo.getD ⟨"", "", 0, ""⟩)) os

/-- waitForCompletion over the two completion reports in arrival order:
returns the Find result together with the number of reports actually read
from the channel. -/
def waitForCompletion (result : ResultMap) (r₁ r₂ : Option String) :
    (Option String × Option ResultMap) × Nat :=
  match r₁ with
  | some e => ((some e, none), 1)
  | none =>
    match r₂ with
    | some e => ((some e, none), 2)
    | none => ((none, some result), 2)

/-- Sequential model of baseFinder.Find: walk the entries, hash the
submitted records with an uncancelled context, collect, and combine the two
completion reports with the walk report read first. -/
def findModel (fileFilter : String → OsFileInfo → Bool)
    (fs : String → Except String (List Nat))
    (hasher : List Nat → Except String (List Nat))
    (entries : List DirEntry) : Option String × Option ResultMap :=
  match walkReport (walkDirectory fileFilter entries) with
  | some e => (some e, none)
  | none =>
    match collectRun []
      ((submittedInputs (walkDirectory fileFilter entries)).map
        (createHashFunction fs hasher false)) with
    | (some e, _) => (some e, none)
    | (none, m) => (none, some m)

/-- filepath.Ext: the suffix of the last slash-separated element starting
at its final dot, empty when there is no dot.  Implemented on the reversed
character list: scan until a slash (no extension) or a dot. -/
def extRevAux : List Char → List Char → List Char
  | [], _ => []
  | c :: rest, acc =>
    if c = '/' then []
    else if c = '.' then c :: acc
    else extRevAux rest (c :: acc)

/-- filepath.Ext over a path string. -/
def filepathExt (path : String) : String :=
  String.mk (extRevAux path.data.reverse [])

example : filepathExt "/music/song.FLAC" = ".FLAC" := by decide
example : filepathExt "/music/song" = "" := by decide
example : filepathExt "/mu.sic/song" = "" := by decide

/-- strings.ToLower restricted to ASCII, which covers every letter the
".flac" comparison can meet. -/
def toLowerGo (s : String) : String :=
  String.mk (s.data.map Char.toLower)

example : toLowerGo ".FLaC" = ".flac" := by decide

/-- acceptFlacFiles: accepts exactly the paths whose extension lower-cases
to ".flac". -/
def acceptFlacFiles (path : String) (_ : OsFileInfo) : Bool :=
  toLowerGo (filepathExt path) == ".flac"

/-- acceptAllFiles: the default finder's filter. -/
def acceptAllFiles (_ : String) (_ : OsFileInfo) : Bool :=
  true

example : acceptFlacFiles "/music/song.FLAC" ⟨"song.FLAC", 9, false⟩ = true := by
  decide
example : acceptFlacFiles "/music/song.mp3" ⟨"song.mp3", 9, false⟩ = false := by
  decide

lemma mem_submittedInputs (fileFilter : String → OsFileInfo → Bool) :
    ∀ (entries : List DirEntry) (i : taskInput),
    i ∈ submittedInputs (walkDirectory fileFilter entries) →
    ∃ e ∈ entries, e.err = none ∧ e.info.isDir = false ∧
      fileFilter e.path e.info = true ∧
      i.fileInfo = some ⟨e.info.name, e.path, e.info.size, ""⟩ := by
  intro entries
  induction entries with
  | nil =>
    intro i hi
    simp [walkDirectory, submittedInputs] at hi
  | cons e es ih =>
    intro i hi
    rcases herr : e.err with _ | msg
    · rcases hdir : e.info.isDir with _ | _
      · rcases hfil : fileFilter e.path e.info with _ | _
        · simp only [walkDirectory, processWalkEntry, herr, hdir, hfil,
            Bool.false_eq_true, if_false] at hi
          rcases ih i hi with ⟨e', he', hrest⟩
          exact ⟨e', List.mem_cons_of_mem _ he', hrest⟩
        · simp only [walkDirectory, processWalkEntry, herr, hdir, hfil,
            Bool.false_eq_true, if_false, if_true] at hi
          rw [submittedInputs] at hi
          rcases List.mem_cons.mp hi with hi | hi
          · exact ⟨e, List.mem_cons_self e es,
              herr, hdir, hfil, by rw [hi]⟩
          · rcases ih i hi with ⟨e', he', hrest⟩
            exact ⟨e', List.mem_cons_of_mem _ he', hrest⟩
      · simp only [walkDirectory, processWalkEntry, herr, hdir, if_true] at hi
        rcases ih i hi with ⟨e', he', hrest⟩
        exact ⟨e', List.mem_cons_of_mem _ he', hrest⟩
    · simp only [walkDirectory, processWalkEntry, herr] at hi
      simp [submittedInputs] at hi

/-- Membership of a record somewhere in the result map. -/
def memMap (m : ResultMap) (fi : FileInfo) : Prop :=
  ∃ p, p ∈ m ∧ fi ∈ p.2

lemma memMap_groupDuplicates (m : ResultMap) (g fi : FileInfo)
    (h : memMap (groupDuplicates m g) fi) : memMap m fi ∨ fi = g := by
  rcases h with ⟨p, hp, hfi⟩
  rcases mem_mapInsert _ _ _ _ hp with hpe | hpm
  · subst hpe
    rcases List.mem_append.mp hfi with hfi | hfi
    · rcases hl : mapLookup m g.Hash with _ | v
      · rw [hl] at hfi
        simp at hfi
      · rw [hl] at hfi
        exact Or.inl ⟨(g.Hash, v), mapLookup_mem m g.Hash v hl, hfi⟩
    · simp at hfi
      exact Or.inr hfi
  · exact Or.inl ⟨p, hpm, hfi⟩

lemma collectRun_mem (outs : List taskOutput) :
    ∀ (m₀ : ResultMap) (r : Option String) (m : ResultMap),
    collectRun m₀ outs = (r, m) → ∀ fi, memMap m fi →
    memMap m₀ fi ∨
      ∃ o ∈ outs, o.err = none ∧ o.fileInfo.getD ⟨"", "", 0, ""⟩ = fi := by
  induction outs with
  | nil =>
    intro m₀ r m h fi hfi
    rw [collectRun] at h
    rcases h with ⟨⟩
    exact Or.inl hfi
  | cons o os ih =>
    intro m₀ r m h fi hfi
    rw [collectRun] at h
    rcases herr : o.err with _ | e
    · rw [herr] at h
      rcases ih _ _ _ h fi hfi with hm | ⟨o', ho', h1, h2⟩
      · rcases memMap_groupDuplicates _ _ _ hm with hm | hm
        · exact Or.inl hm
        · exact Or.inr ⟨o, List.mem_cons_self o os, herr, hm.symm⟩
      · exact Or.inr ⟨o', List.mem_cons_of_mem o ho', h1, h2⟩
    · rw [herr] at h
      rcases h with ⟨⟩
      exact Or.inl hfi

lemma createHashFunction_fileInfo (fs : String → Except String (List Nat))
    (hasher : List Nat → Except String (List Nat)) (c : Bool)
    (rec : FileInfo) :
    ∃ r', (createHashFunction fs hasher c ⟨some rec⟩).fileInfo = some r' ∧
      r'.Name = rec.Name ∧ r'.Path = rec.Path ∧ r'.Size = rec.Size := by
  rcases h : hashFile fs hasher c rec with e | digest
  · exact ⟨rec, by simp [createHashFunction, h], rfl, rfl, rfl⟩
  · exact ⟨⟨rec.Name, rec.Path, rec.Size, hexEncode digest⟩,
      by simp [createHashFunction, h], rfl, rfl, rfl⟩

lemma walkReport_first_error (fileFilter : String → OsFileInfo → Bool) :
    ∀ (pre : List DirEntry) (path : String) (info : OsFileInfo)
      (msg : String) (rest : List DirEntry),
    (∀ e ∈ pre, e.err = none) →
    walkReport (walkDirectory fileFilter
        (pre ++ ⟨path, info, some msg⟩ :: rest)) =
      some (wrapWalkError path msg) := by
  intro pre
  induction pre with
  | nil =>
    intro path info msg rest _
    simp [walkDirectory, processWalkEntry, walkReport]
  | cons e pre ih =>
    intro path info msg rest hpre
    have herr : e.err = none := hpre e (List.mem_cons_self e pre)
    have hpre' : ∀ x ∈ pre, x.err = none :=
      fun x hx => hpre x (List.mem_cons_of_mem e hx)
    rcases hdir : e.info.isDir with _ | _
    · rcases hfil : fileFilter e.path e.info with _ | _
      · simp only [List.cons_append, walkDirectory, processWalkEntry, herr,
          hdir, hfil, Bool.false_eq_true, if_false]
        exact ih path info msg rest hpre'
      · simp only [List.cons_append, walkDirectory, processWalkEntry, herr,
          hdir, hfil, Bool.false_eq_true, if_false, if_true]
        rw [walkReport]
        exact ih path info msg rest hpre'
    · simp only [List.cons_append, walkDirectory, processWalkEntry, herr,
        hdir, if_true]
      exact ih path info msg rest hpre'

/-- C8: in every successful scan of the model, a file appears in some group
of the result map only if it stems from a traversal entry that was a
non-directory and for which the filter returned true; an entry rejected by
the filter is skipped with no yield and no error before any task is
submitted; and acceptFlacFiles accepts exactly the paths whose extension
lower-cases to ".flac". -/
theorem filter_gates_result :
    (∀ (fileFilter : String → OsFileInfo → Bool)
       (fs : String → Except String (List Nat))
       (hasher : List Nat → Except String (List Nat))
       (entries : List DirEntry) (m : ResultMap) (h : String)
       (l : List FileInfo) (fi : FileInfo),
      findModel fileFilter fs hasher entries = (none, some m) →
      mapLookup m h = some l → fi ∈ l →
      ∃ e ∈ entries, e.err = none ∧ e.info.isDir = false ∧
        fileFilter e.path e.info = true ∧
        fi.Name = e.info.name ∧ fi.Path = e.path ∧ fi.Size = e.info.size) ∧
    (∀ (fileFilter : String → OsFileInfo → Bool) (path : String)
       (info : OsFileInfo),
      info.isDir = false → fileFilter path info = false →
      processWalkEntry fileFilter path info none = (none, none)) ∧
    (∀ (path : String) (info : OsFileInfo),
      acceptFlacFiles path info = true ↔
        toLowerGo (filepathExt path) = ".flac") := by
  refine ⟨?_, ?_, ?_⟩
  · intro fileFilter fs hasher entries m h l fi hfind hlook hfi
    unfold findModel at hfind
    rcases hw : walkReport (walkDirectory fileFilter entries) with _ | e
    · rw [hw] at hfind
      rcases hc : collectRun []
          ((submittedInputs (walkDirectory fileFilter entries)).map
            (createHashFunction fs hasher false)) with ⟨r, m'⟩
      rw [hc] at hfind
      rcases r with _ | e
      · simp only [Prod.mk.injEq, Option.some.injEq] at hfind
        have hm : m' = m := hfind.2
        subst hm
        have hmem : memMap m' fi := ⟨(h, l), mapLookup_mem m' h l hlook, hfi⟩
        rcases collectRun_mem _ _ _ _ hc fi hmem with habs | ⟨o, ho, herr, hgetd⟩
        · rcases habs with ⟨p, hp, _⟩
          exact absurd hp (List.not_mem_nil p)
        · rcases List.mem_map.mp ho with ⟨i, hi, hoi⟩
          rcases mem_submittedInputs fileFilter entries i hi with
            ⟨e', he', herr', hdir', hfil', hio⟩
          have hieq : i = ⟨some ⟨e'.info.name, e'.path, e'.info.size, ""⟩⟩ := by
            cases i
            simp only [taskInput.mk.injEq]
            exact hio
          rcases createHashFunction_fileInfo fs hasher false
            ⟨e'.info.name, e'.path, e'.info.size, ""⟩ with ⟨r', hr', hrn, hrp, hrs⟩
          have hofi : o.fileInfo = some r' := by
            rw [← hoi, hieq]
            exact hr'
          have hfieq : fi = r' := by
            rw [← hgetd, hofi]
            rfl
          exact ⟨e', he', herr', hdir', hfil',
            by rw [hfieq, hrn], by rw [hfieq, hrp], by rw [hfieq, hrs]⟩
      · simp at hfind
    · rw [hw] at hfind
      simp at hfind
  · intro fileFilter path info hdir hfil
    simp [processWalkEntry, hdir, hfil]
  · intro path info
    simp [acceptFlacFiles]

/-- C8 witness: a directory with one FLAC file and one text file scanned
with the FLAC filter: the sole record of the sole group stems from the
FLAC entry, which the filter accepted. -/
theorem filter_gates_result_witness :
    ∃ e ∈ [(⟨"/m/a.flac", ⟨"a.flac", 1, false⟩, none⟩ : DirEntry),
           ⟨"/m/b.txt", ⟨"b.txt", 2, false⟩, none⟩],
      e.err = none ∧ e.info.isDir = false ∧
      acceptFlacFiles e.path e.info = true ∧
      (⟨"a.flac", "/m/a.flac", 1, "00"⟩ : FileInfo).Name = e.info.name ∧
      (⟨"a.flac", "/m/a.flac", 1, "00"⟩ : FileInfo).Path = e.path ∧
      (⟨"a.flac", "/m/a.flac", 1, "00"⟩ : FileInfo).Size = e.info.size :=
  filter_gates_result.1 acceptFlacFiles (fun _ => Except.ok [0])
    (fun c => Except.ok c)
    [⟨"/m/a.flac", ⟨"a.flac", 1, false⟩, none⟩,
     ⟨"/m/b.txt", ⟨"b.txt", 2, false⟩, none⟩]
    [("00", [⟨"a.flac", "/m/a.flac", 1, "00"⟩])] "00"
    [⟨"a.flac", "/m/a.flac", 1, "00"⟩] ⟨"a.flac", "/m/a.flac", 1, "00"⟩
    (by decide) (by decide) (by decide)

/-- C9: every task the walk goroutine submits carries a non-nil record;
every output the task function produces from a non-nil input carries a
non-nil record (so the collector's dereference on error-free outputs never
faults); and the nil-input branch — the only source of a nil record with a
nil error — is exactly taskOutput{nil, nil}. -/
theorem submitted_records_never_nil :
    (∀ (fileFilter : String → OsFileInfo → Bool) (entries : List DirEntry)
       (i : taskInput),
      i ∈ submittedInputs (walkDirectory fileFilter entries) →
      i.fileInfo.isSome = true) ∧
    (∀ (fs : String → Except String (List Nat))
       (hasher : List Nat → Except String (List Nat)) (c : Bool)
       (rec : FileInfo),
      ((createHashFunction fs hasher c ⟨some rec⟩).fileInfo).isSome = true) ∧
    (∀ (fs : String → Except String (List Nat))
       (hasher : List Nat → Except String (List Nat)) (c : Bool),
      createHashFunction fs hasher c ⟨none⟩ = ⟨none, none⟩) := by
  refine ⟨?_, ?_, fun fs hasher c => rfl⟩
  · intro fileFilter entries i hi
    rcases mem_submittedInputs fileFilter entries i hi with ⟨_, _, _, _, _, hio⟩
    rw [hio]
    rfl
  · intro fs hasher c rec
    rcases createHashFunction_fileInfo fs hasher c rec with ⟨r', hr', _⟩
    rw [hr']
    rfl

/-- C9 witness: the one task submitted for a one-file directory carries a
non-nil record, and a concrete non-nil-input invocation yields a non-nil
output record. -/
theorem submitted_records_never_nil_witness :
    (taskInput.mk (some ⟨"a.txt", "/a.txt", 1, ""⟩)).fileInfo.isSome = true ∧
    ((createHashFunction (fun _ => Except.ok [3]) (fun c => Except.ok c)
      false ⟨some ⟨"a.txt", "/a.txt", 1, ""⟩⟩).fileInfo).isSome = true :=
  ⟨submitted_records_never_nil.1 acceptAllFiles
    [⟨"/a.txt", ⟨"a.txt", 1, false⟩, none⟩] ⟨some ⟨"a.txt", "/a.txt", 1, ""⟩⟩
    (by decide),
   submitted_records_never_nil.2.1 (fun _ => Except.ok [3])
    (fun c => Except.ok c) false ⟨"a.txt", "/a.txt", 1, ""⟩⟩

/-- C2 counterexample: when the first completion report is already an
error, waitForCompletion returns after reading only ONE report — the
second, still pending report is never drained (the claim asserts it is
read and discarded, i.e. that the consumed count is 2). -/
theorem find_error_return_no_drain_cex :
    (waitForCompletion [] (some "walk failed") none).1 =
      (some "walk failed", none) ∧
    (waitForCompletion [] (some "walk failed") none).2 = 1 ∧
    ¬ (waitForCompletion [] (some "walk failed") none).2 = 2 := by
  decide

/-- C2 amended: Find returns the first non-nil completion report together
with a nil map and never a partial map; when the first report is an error
it returns immediately having consumed only that one report (the second is
NOT drained), and only when the first report is nil is the second read; a
traversal error on any path aborts the scan with the wrapped error and a
nil map. -/
theorem find_first_error_aborts :
    (∀ (m : ResultMap) (r₂ : Option String) (e : String),
      waitForCompletion m (some e) r₂ = ((some e, none), 1)) ∧
    (∀ (m : ResultMap) (e : String),
      waitForCompletion m none (some e) = ((some e, none), 2)) ∧
    (∀ m : ResultMap, waitForCompletion m none none = ((none, some m), 2)) ∧
    (∀ (fileFilter : String → OsFileInfo → Bool)
       (fs : String → Except String (List Nat))
       (hasher : List Nat → Except String (List Nat))
       (pre rest : List DirEntry) (path : String) (info : OsFileInfo)
       (msg : String),
      (∀ e ∈ pre, e.err = none) →
      findModel fileFilter fs hasher (pre ++ ⟨path, info, some msg⟩ :: rest) =
        (some (wrapWalkError path msg), none)) := by
  refine ⟨fun m r₂ e => rfl, fun m e => rfl, fun m => rfl, ?_⟩
  intro fileFilter fs hasher pre rest path info msg hpre
  unfold findModel
  rw [walkReport_first_error fileFilter pre path info msg rest hpre]

/-- C2 witness: a clean entry followed by an unreadable path aborts the
model scan with the wrapped traversal error and a nil map, and an
error-first report pair returns that error with a nil map after one read. -/
theorem find_first_error_aborts_witness :
    waitForCompletion [] (some "boom") none = ((some "boom", none), 1) ∧
    findModel acceptAllFiles (fun _ => Except.ok [0]) (fun c => Except.ok c)
      ([⟨"/ok.txt", ⟨"ok.txt", 1, false⟩, none⟩] ++
        ⟨"/bad", ⟨"bad", 0, false⟩, some "permission denied"⟩ :: []) =
      (some (wrapWalkError "/bad" "permission denied"), none) :=
  ⟨find_first_error_aborts.1 [] none "boom",
   find_first_error_aborts.2.2.2 acceptAllFiles (fun _ => Except.ok [0])
    (fun c => Except.ok c) [⟨"/ok.txt", ⟨"ok.txt", 1, false⟩, none⟩] []
    "/bad" ⟨"bad", 0, false⟩ "permission denied" (by decide)⟩
